import Mathlib

/-!
Verification of the mention store and ingestion pipeline of `src/app.py`
(Utility Municipalization Monitor).  Python dictionaries holding mention
records are embedded as a Lean structure whose optional fields model
`dict.get` (returning `none` when the key is absent); the JSON files are
modelled as in-memory lists, and each Flask handler that performs a
load-mutate-save cycle is embedded as a pure function from the loaded
state to the saved state (an `Option` result distinguishes "no write
performed" from "collection persisted").
-/

/-- A mention record (`m` in `app.py`).  Every field that the code reads
with `m.get(...)` is an `Option`, `none` standing for an absent key.
`id` is stored already stringified, since the code only ever compares
`str(m.get('id'))`. -/
structure Mention where
  id : String
  url : Option String
  status : Option String
  location : Option String
  source : Option String
  priority : Option String
  tags : List String
  notes : Option String
  capturedAt : Option String
  updated_at : Option String
deriving DecidableEq, Repr

/-- A crawl-log record, as built in `trigger_crawl` (app.py:207-213). -/
structure CrawlLogEntry where
  timestamp : String
  queries : List String
  total_found : Nat
  new_unique : Nat
  duplicates : Nat
deriving DecidableEq, Repr

/-- The deduplicating merge inside `trigger_crawl` (app.py:193-204):
`existing_urls = {m.get('url') for m in existing_mentions}`,
`unique_new_mentions = [m for m in new_mentions if m.get('url') not in existing_urls]`,
`all_mentions = existing_mentions + unique_new_mentions`.
Returns `(all_mentions, unique_new_mentions)`. -/
def deduplicate_and_merge (existing_mentions new_mentions : List Mention) :
    List Mention × List Mention :=
  let existing_urls := existing_mentions.map (fun m => m.url)
  let unique_new_mentions :=
    new_mentions.filter (fun m => decide (m.url ∉ existing_urls))
  (existing_mentions ++ unique_new_mentions, unique_new_mentions)

/-- C1: the ingestion merge yields exactly `existing` followed by those
incoming mentions whose `url` is not among the urls of `existing`, both
parts in their original relative order. -/
theorem merge_is_existing_append_unique (E I : List Mention) :
    (deduplicate_and_merge E I).1 =
      E ++ I.filter (fun m => decide (∀ e ∈ E, e.url ≠ m.url)) ∧
    (deduplicate_and_merge E I).2 =
      I.filter (fun m => decide (∀ e ∈ E, e.url ≠ m.url)) := by
  have hpred : ∀ m : Mention,
      (decide (m.url ∉ E.map (fun m => m.url))) =
      (decide (∀ e ∈ E, e.url ≠ m.url)) := by
    intro m
    by_cases h : m.url ∈ E.map (fun m => m.url)
    · obtain ⟨e, he, hurl⟩ := List.mem_map.mp h
      simp only [decide_eq_decide]
      constructor
      · intro hc; exact absurd h hc
      · intro hall; exact absurd hurl (hall e he)
    · simp only [decide_eq_decide]
      constructor
      · intro _ e he hurl
        exact h (List.mem_map.mpr ⟨e, he, hurl⟩)
      · intro _; exact h
  constructor
  · simp only [deduplicate_and_merge]
    congr 1
    exact List.filter_congr (fun m _ => hpred m)
  · simp only [deduplicate_and_merge]
    exact List.filter_congr (fun m _ => hpred m)

/-- C4: merging the same incoming list a second time, against the result of
the first merge, admits zero new mentions and leaves the merged collection
unchanged. -/
theorem merge_idempotent (E I : List Mention) :
    (deduplicate_and_merge (deduplicate_and_merge E I).1 I).2 = [] ∧
    (deduplicate_and_merge (deduplicate_and_merge E I).1 I).1 =
      (deduplicate_and_merge E I).1 := by
  have hnil : (deduplicate_and_merge (deduplicate_and_merge E I).1 I).2 = [] := by
    simp only [deduplicate_and_merge]
    rw [List.filter_eq_nil_iff]
    intro m hm
    simp only [decide_eq_true_eq, not_not, List.map_append, List.mem_append]
    by_cases h : m.url ∈ E.map (fun m => m.url)
    · exact Or.inl h
    · right
      refine List.mem_map.mpr ⟨m, ?_, rfl⟩
      exact List.mem_filter.mpr ⟨hm, by simpa using h⟩
  refine ⟨hnil, ?_⟩
  have hsplit : (deduplicate_and_merge (deduplicate_and_merge E I).1 I).1 =
      (deduplicate_and_merge E I).1 ++
        (deduplicate_and_merge (deduplicate_and_merge E I).1 I).2 := rfl
  rw [hsplit, hnil, List.append_nil]

/-- C10: a missing `url` (absent key) and an empty-string `url` are ordinary
dedup keys — a candidate whose url is `none` (resp. `some ""`) is rejected
whenever some existing mention's url is also `none` (resp. `some ""`). -/
theorem merge_dedups_missing_and_empty_urls (E I : List Mention) (m : Mention)
    (_hm : m ∈ I)
    (h : (m.url = none ∧ ∃ e ∈ E, e.url = none) ∨
         (m.url = some "" ∧ ∃ e ∈ E, e.url = some "")) :
    m ∉ (deduplicate_and_merge E I).2 := by
  intro hmem
  simp only [deduplicate_and_merge] at hmem
  have hpred := (List.mem_filter.mp hmem).2
  simp only [decide_eq_true_eq] at hpred
  rcases h with ⟨hurl, e, he, heurl⟩ | ⟨hurl, e, he, heurl⟩ <;>
    exact hpred (List.mem_map.mpr ⟨e, he, by rw [heurl, hurl]⟩)

/-- A sample mention used in concrete witnesses and counterexamples. -/
def sampleMention : Mention :=
  { id := "1", url := some "https://example.com/a", status := some "pending",
    location := some "Austin", source := some "news", priority := some "high",
    tags := ["t1"], notes := some "n", capturedAt := some "2025-01-01T00:00:00",
    updated_at := none }

/-- Witness for C10: a url-less candidate against a url-less existing mention. -/
theorem merge_dedups_missing_and_empty_urls_witness :
    { sampleMention with url := none } ∉
      (deduplicate_and_merge [{ sampleMention with id := "0", url := none }]
        [{ sampleMention with url := none }]).2 :=
  merge_dedups_missing_and_empty_urls _ _ _ (by decide) (by decide)

/-- The §3 invariant: no two mentions in the collection share the same
non-empty url (a missing url and an empty-string url do not count as
"non-empty"). -/
def noTwoShareNonEmptyUrl (l : List Mention) : Prop :=
  l.Pairwise (fun a b => a.url = b.url → a.url = none ∨ a.url = some "")

instance (l : List Mention) : Decidable (noTwoShareNonEmptyUrl l) := by
  unfold noTwoShareNonEmptyUrl; infer_instance

/-- Counterexample to C2 as stated: the merge dedups incoming candidates only
against the existing collection, so two incoming candidates sharing a fresh
non-empty url are both admitted. -/
theorem merge_uniqueness_counterexample :
    noTwoShareNonEmptyUrl ([] : List Mention) ∧
    ¬ noTwoShareNonEmptyUrl
      (deduplicate_and_merge ([] : List Mention)
        [sampleMention, { sampleMention with id := "2" }]).1 :=
  ⟨by decide, by decide⟩

/-- C2 amended: when additionally no two incoming candidates share the same
non-empty url, the merged collection satisfies the uniqueness invariant. -/
theorem merge_preserves_url_uniqueness (E I : List Mention)
    (hE : noTwoShareNonEmptyUrl E) (hI : noTwoShareNonEmptyUrl I) :
    noTwoShareNonEmptyUrl (deduplicate_and_merge E I).1 := by
  unfold noTwoShareNonEmptyUrl at *
  simp only [deduplicate_and_merge]
  rw [List.pairwise_append]
  refine ⟨hE, hI.sublist (List.filter_sublist _), ?_⟩
  intro a ha b hb hab
  have hpred := (List.mem_filter.mp hb).2
  simp only [decide_eq_true_eq] at hpred
  exact absurd (List.mem_map.mpr ⟨a, ha, hab⟩) hpred

/-- Witness for the amended C2 at a concrete pair of collections. -/
theorem merge_preserves_url_uniqueness_witness :
    noTwoShareNonEmptyUrl
      (deduplicate_and_merge [sampleMention]
        [{ sampleMention with id := "2", url := some "https://example.com/b" }]).1 :=
  merge_preserves_url_uniqueness _ _ (by decide) (by decide)

/-- Python truthiness of an optional string request parameter (`if status:`):
true iff the parameter is present and non-empty. -/
def truthy : Option String → Bool
  | none => false
  | some s => s ≠ ""

/-- The filtering of `get_mentions` (app.py:96-110): the `status` filter is
applied whenever the parameter is truthy (there is no "all" sentinel check
for it), while `location` and `priority` are applied only when truthy and
different from "all"; each applied filter is an exact match on the
corresponding `m.get(field)`. -/
def get_mentions (mentions : List Mention)
    (status location priority : Option String) : List Mention :=
  let mentions :=
    if truthy status then
      mentions.filter (fun m => decide (m.status = status))
    else mentions
  let mentions :=
    if truthy location && decide (location ≠ some "all") then
      mentions.filter (fun m => decide (m.location = location))
    else mentions
  let mentions :=
    if truthy priority && decide (priority ≠ some "all") then
      mentions.filter (fun m => decide (m.priority = priority))
    else mentions
  mentions

/-- Whether the status filter parameter keeps mention `m`. -/
def statusKeeps (status : Option String) (m : Mention) : Bool :=
  !truthy status || decide (m.status = status)

/-- Whether the location filter parameter keeps mention `m`. -/
def locationKeeps (location : Option String) (m : Mention) : Bool :=
  !(truthy location && decide (location ≠ some "all")) || decide (m.location = location)

/-- Whether the priority filter parameter keeps mention `m`. -/
def priorityKeeps (priority : Option String) (m : Mention) : Bool :=
  !(truthy priority && decide (priority ≠ some "all")) || decide (m.priority = priority)

lemma ite_filter_eq_filter (b : Bool) (p : Mention → Bool) (l : List Mention) :
    (if b then l.filter p else l) = l.filter (fun m => !b || p m) := by
  cases b <;> simp

lemma filter_filter_filter (p q r : Mention → Bool) (l : List Mention) :
    ((l.filter p).filter q).filter r = l.filter (fun m => p m && q m && r m) := by
  rw [List.filter_filter, List.filter_filter]
  refine List.filter_congr ?_
  intro m _
  cases p m <;> cases q m <;> cases r m <;> rfl

/-- Counterexample to C3 as stated: the sentinel "all" is not honored for the
`status` parameter — `status=all` exact-matches and drops a pending mention,
where the claim predicts no restriction. -/
theorem filter_all_sentinel_counterexample :
    get_mentions [sampleMention] (some "all") none none = [] ∧
    [sampleMention] ≠ ([] : List Mention) :=
  ⟨by decide, by decide⟩

/-- C3 amended: the list operation returns exactly the subsequence matching
all applied filters (AND composition, input order preserved); absent and
empty-string parameters impose no restriction, the sentinel "all" imposes no
restriction for `location` and `priority`, but a present non-empty `status`
value — including "all" — always restricts to an exact match. -/
theorem get_mentions_filters_and_compose (c : List Mention)
    (status location priority : Option String) :
    get_mentions c status location priority =
      c.filter (fun m =>
        statusKeeps status m && locationKeeps location m && priorityKeeps priority m) := by
  simp only [get_mentions]
  rw [ite_filter_eq_filter, ite_filter_eq_filter, ite_filter_eq_filter,
    filter_filter_filter]
  simp only [statusKeeps, locationKeeps, priorityKeeps]

/-- The append of `save_crawl_log` (app.py:59-68): load the log, append the
entry, keep only the last 100 entries (`logs[-100:]`), save.  Returns the
saved log. -/
def save_crawl_log (logs : List CrawlLogEntry) (log_entry : CrawlLogEntry) :
    List CrawlLogEntry :=
  let logs := logs ++ [log_entry]
  logs.drop (logs.length - 100)

lemma save_crawl_log_length_le (logs : List CrawlLogEntry) (e : CrawlLogEntry) :
    (save_crawl_log logs e).length ≤ 100 := by
  simp only [save_crawl_log, List.length_drop, List.length_append,
    List.length_singleton]
  omega

lemma foldl_save_crawl_log (es : List CrawlLogEntry) :
    ∀ init : List CrawlLogEntry, init.length ≤ 100 →
      es.foldl save_crawl_log init =
        (init ++ es).drop (init.length + es.length - 100) := by
  induction es with
  | nil =>
    intro init h
    rw [List.foldl_nil, List.append_nil, List.length_nil, Nat.add_zero,
      Nat.sub_eq_zero_of_le h, List.drop_zero]
  | cons e es ih =>
    intro init h
    rw [List.foldl_cons, ih _ (save_crawl_log_length_le init e)]
    simp only [save_crawl_log, List.length_drop, List.length_append,
      List.length_singleton]
    have hk : init.length + 1 - 100 ≤ (init ++ [e]).length := by
      simp only [List.length_append, List.length_singleton]; omega
    rw [← List.drop_append_of_le_length hk, List.drop_drop]
    congr 1
    · simp only [List.length_cons]; omega
    · simp only [List.append_assoc, List.singleton_append]

/-- C5: every append to the crawl log leaves at most 100 stored entries, and
N > 100 appends to an initially empty log leave exactly the last 100
appended entries, oldest first. -/
theorem crawl_log_retention :
    (∀ (logs : List CrawlLogEntry) (e : CrawlLogEntry),
        (save_crawl_log logs e).length ≤ 100) ∧
    (∀ es : List CrawlLogEntry, 100 < es.length →
        es.foldl save_crawl_log [] = es.drop (es.length - 100)) := by
  refine ⟨save_crawl_log_length_le, ?_⟩
  intro es _h
  rw [foldl_save_crawl_log es [] (by simp)]
  simp

/-- A sample crawl-log entry used in concrete witnesses. -/
def entry0 : CrawlLogEntry :=
  { timestamp := "2025-01-01T00:00:00", queries := ["municipal utility"],
    total_found := 1, new_unique := 1, duplicates := 0 }

/-- Witness for C5 at 101 appends to an empty log. -/
theorem crawl_log_retention_witness :
    (List.replicate 101 entry0).foldl save_crawl_log [] =
      (List.replicate 101 entry0).drop ((List.replicate 101 entry0).length - 100) :=
  crawl_log_retention.2 _ (by simp)

/-- A PATCH request body as read by `update_mention` (app.py:140-143): the
code looks up only the four allow-listed keys of the JSON object; every
other key present is recorded in `extraKeys` and is never read. -/
structure Patch where
  status : Option String
  tags : Option (List String)
  notes : Option String
  priority : Option String
  extraKeys : List String
deriving DecidableEq, Repr

/-- The allow-listed field assignments plus the `updated_at` stamp that
`update_mention` (app.py:139-145) performs on the found mention. -/
def apply_patch (m : Mention) (data : Patch) (now : String) : Mention :=
  let m := match data.status with
    | some v => { m with status := some v }
    | none => m
  let m := match data.tags with
    | some v => { m with tags := v }
    | none => m
  let m := match data.notes with
    | some v => { m with notes := some v }
    | none => m
  let m := match data.priority with
    | some v => { m with priority := some v }
    | none => m
  { m with updated_at := some now }

/-- The handler `update_mention` (app.py:129-152): find the first mention
whose stringified id equals `mention_id`, patch it in place, persist, and
return it; `none` models the 404 NotFound response with no write performed.
Returns the saved collection together with the updated mention. -/
def update_mention (mentions : List Mention) (mention_id : String)
    (data : Patch) (now : String) : Option (List Mention × Mention) :=
  match mentions with
  | [] => none
  | m :: rest =>
    if m.id = mention_id then
      some (apply_patch m data now :: rest, apply_patch m data now)
    else
      match update_mention rest mention_id data now with
      | none => none
      | some (rest2, u) => some (m :: rest2, u)

lemma update_mention_found (pre post : List Mention) (m : Mention)
    (data : Patch) (now : String) (hpre : ∀ x ∈ pre, x.id ≠ m.id) :
    update_mention (pre ++ m :: post) m.id data now =
      some (pre ++ apply_patch m data now :: post, apply_patch m data now) := by
  induction pre with
  | nil => simp [update_mention]
  | cons x xs ih =>
    have hx : x.id ≠ m.id := hpre x (List.mem_cons_self x xs)
    have ihh := ih (fun y hy => hpre y (List.mem_cons_of_mem x hy))
    simp [update_mention, hx, ihh]

lemma apply_patch_fields (m : Mention) (data : Patch) (now : String) :
    (apply_patch m data now).id = m.id ∧
    (apply_patch m data now).url = m.url ∧
    (apply_patch m data now).capturedAt = m.capturedAt ∧
    (apply_patch m data now).location = m.location ∧
    (apply_patch m data now).source = m.source ∧
    (apply_patch m data now).updated_at = some now ∧
    (apply_patch m data now).status = data.status.elim m.status some ∧
    (apply_patch m data now).tags = data.tags.elim m.tags (fun v => v) ∧
    (apply_patch m data now).notes = data.notes.elim m.notes some ∧
    (apply_patch m data now).priority = data.priority.elim m.priority some := by
  obtain ⟨st, tg, nt, pr, ks⟩ := data
  cases st <;> cases tg <;> cases nt <;> cases pr <;>
    simp [apply_patch, Option.elim]

/-- C6: on the first mention whose id matches, the update overwrites exactly
the allow-listed fields present in the patch, stamps `updated_at`, keeps
`id`, `url`, `capturedAt`, `location`, `source` and every other mention
unchanged, succeeds whenever the id exists, and is insensitive to patch
fields outside the allow-list. -/
theorem update_restricts_fields_and_frames
    (pre post : List Mention) (m : Mention) (data : Patch) (now : String)
    (hpre : ∀ x ∈ pre, x.id ≠ m.id) :
    (update_mention (pre ++ m :: post) m.id data now =
       some (pre ++ apply_patch m data now :: post, apply_patch m data now)) ∧
    ((apply_patch m data now).id = m.id ∧
     (apply_patch m data now).url = m.url ∧
     (apply_patch m data now).capturedAt = m.capturedAt ∧
     (apply_patch m data now).location = m.location ∧
     (apply_patch m data now).source = m.source) ∧
    ((apply_patch m data now).updated_at = some now ∧
     (apply_patch m data now).status = data.status.elim m.status some ∧
     (apply_patch m data now).tags = data.tags.elim m.tags (fun v => v) ∧
     (apply_patch m data now).notes = data.notes.elim m.notes some ∧
     (apply_patch m data now).priority = data.priority.elim m.priority some) ∧
    (∀ ks : List String,
      update_mention (pre ++ m :: post) m.id { data with extraKeys := ks } now =
        update_mention (pre ++ m :: post) m.id data now) := by
  obtain ⟨h1, h2, h3, h4, h5, h6, h7, h8, h9, h10⟩ := apply_patch_fields m data now
  refine ⟨update_mention_found pre post m data now hpre,
    ⟨h1, h2, h3, h4, h5⟩, ⟨h6, h7, h8, h9, h10⟩, ?_⟩
  intro ks
  have hap : apply_patch m { data with extraKeys := ks } now =
      apply_patch m data now := rfl
  rw [update_mention_found pre post m { data with extraKeys := ks } now hpre,
    update_mention_found pre post m data now hpre, hap]

/-- A sample patch carrying one allow-listed field and one unknown field. -/
def patch0 : Patch :=
  { status := some "approved", tags := none, notes := none, priority := none,
    extraKeys := ["bogus_field"] }

/-- Witness for C6: updating the second of two mentions with `patch0`. -/
theorem update_restricts_fields_witness :
    update_mention [{ sampleMention with id := "0" }, sampleMention] "1"
        patch0 "2025-02-02T00:00:00" =
      some ([{ sampleMention with id := "0" },
             apply_patch sampleMention patch0 "2025-02-02T00:00:00"],
            apply_patch sampleMention patch0 "2025-02-02T00:00:00") :=
  (update_restricts_fields_and_frames [{ sampleMention with id := "0" }] []
    sampleMention patch0 "2025-02-02T00:00:00" (by decide)).1

/-- The handler `delete_mention` (app.py:154-169): drop every mention whose
stringified id equals `mention_id`; persist the remainder iff the collection
shrank, otherwise answer 404 NotFound with no write (`none`). -/
def delete_mention (mentions : List Mention) (mention_id : String) :
    Option (List Mention) :=
  let remaining := mentions.filter (fun m => decide (m.id ≠ mention_id))
  if remaining.length < mentions.length then some remaining else none

lemma length_filter_lt_of_exists_not (p : Mention → Bool) (c : List Mention)
    (h : ∃ m ∈ c, p m = false) : (c.filter p).length < c.length := by
  induction c with
  | nil => simp at h
  | cons x xs ih =>
    obtain ⟨m, hm, hpm⟩ := h
    cases hx : p x with
    | false =>
      simp only [List.filter_cons, hx, if_neg Bool.false_ne_true,
        List.length_cons]
      exact Nat.lt_succ_of_le (List.length_filter_le p xs)
    | true =>
      rcases List.mem_cons.mp hm with rfl | hm2
      · simp [hx] at hpm
      · simp only [List.filter_cons, hx, if_pos rfl, List.length_cons]
        exact Nat.succ_lt_succ (ih ⟨m, hm2, hpm⟩)

/-- Counterexample to C7 as stated: with two stored mentions sharing id "1",
the delete removes both (the list comprehension keeps only non-matching
ids), where the claim predicts that only the first is removed and the
second persisted. -/
theorem delete_first_only_counterexample :
    delete_mention [sampleMention, { sampleMention with url := some "b" }] "1" =
      some [] ∧
    some ([] : List Mention) ≠ some [{ sampleMention with url := some "b" }] :=
  ⟨by decide, by decide⟩

/-- C7 amended: the delete removes every mention whose stringified id equals
the given id (hence exactly the first match when ids are unique) and
persists the remainder; when no mention matches it reports NotFound and
performs no write. -/
theorem delete_removes_all_matches (c : List Mention) (mention_id : String) :
    ((∃ m ∈ c, m.id = mention_id) →
      delete_mention c mention_id =
        some (c.filter (fun m => decide (m.id ≠ mention_id)))) ∧
    ((∀ m ∈ c, m.id ≠ mention_id) → delete_mention c mention_id = none) := by
  constructor
  · rintro ⟨m, hm, hid⟩
    simp only [delete_mention]
    rw [if_pos]
    exact length_filter_lt_of_exists_not _ c ⟨m, hm, by simp [hid]⟩
  · intro hall
    simp only [delete_mention]
    rw [List.filter_eq_self.mpr (fun m hm => by simp [hall m hm]), if_neg]
    exact Nat.lt_irrefl c.length

/-- Witness for C7: a present id is deleted and persisted, an absent id
reports NotFound without writing. -/
theorem delete_removes_all_matches_witness :
    delete_mention [sampleMention] "1" =
      some ([sampleMention].filter (fun m => decide (m.id ≠ "1"))) ∧
    delete_mention [sampleMention] "2" = none :=
  ⟨(delete_removes_all_matches [sampleMention] "1").1 ⟨sampleMention, by decide, rfl⟩,
   (delete_removes_all_matches [sampleMention] "2").2 (by decide)⟩

/-- The JSON body answered by `trigger_crawl` (app.py:218-231): absent keys
of the failure body are `none`. -/
structure CrawlResponse where
  success : Bool
  error : Option String
  new_mentions : Option Nat
  total_found : Option Nat
  duplicates : Option Nat
  mentions_preview : List Mention
deriving DecidableEq, Repr

/-- One `trigger_crawl` invocation's observable outcome: the response body
together with the writes performed (`none` = the mentions file was not
written / no crawl-log entry was appended). -/
structure TriggerOutcome where
  response : CrawlResponse
  saved_mentions : Option (List Mention)
  appended_log : Option CrawlLogEntry
deriving DecidableEq, Repr

/-- The handler `trigger_crawl` (app.py:171-231), the crawl collaborator's
outcome passed in as `crawl` (`Except.error e` models `run_crawl` raising an
exception whose description is `e`).  An exception reaches the single
`except` branch before any file write, which answers `success: False` with
the error string; on success the merge, the save and the log append happen
as in the code. -/
def trigger_crawl (crawl : Except String (List Mention))
    (existing_mentions : List Mention) (queries : List String)
    (now : String) : TriggerOutcome :=
  match crawl with
  | .error e =>
    { response := { success := false, error := some e, new_mentions := none,
                    total_found := none, duplicates := none,
                    mentions_preview := [] },
      saved_mentions := none, appended_log := none }
  | .ok new_mentions =>
    let merged := deduplicate_and_merge existing_mentions new_mentions
    let unique_new_mentions := merged.2
    let log_entry : CrawlLogEntry :=
      { timestamp := now, queries := queries,
        total_found := new_mentions.length,
        new_unique := unique_new_mentions.length,
        duplicates := new_mentions.length - unique_new_mentions.length }
    { response := { success := true, error := none,
                    new_mentions := some unique_new_mentions.length,
                    total_found := some new_mentions.length,
                    duplicates := some (new_mentions.length - unique_new_mentions.length),
                    mentions_preview := unique_new_mentions.take 10 },
      saved_mentions := some merged.1, appended_log := some log_entry }

/-- C8: when the crawl collaborator raises, the ingestion reports failure
carrying the error's description, writes nothing to the mentions store and
appends no crawl-log entry. -/
theorem crawl_failure_aborts (e : String) (existing : List Mention)
    (queries : List String) (now : String) :
    (trigger_crawl (Except.error e) existing queries now).response.success = false ∧
    (trigger_crawl (Except.error e) existing queries now).response.error = some e ∧
    (trigger_crawl (Except.error e) existing queries now).saved_mentions = none ∧
    (trigger_crawl (Except.error e) existing queries now).appended_log = none :=
  ⟨rfl, rfl, rfl, rfl⟩

/-- Python list slicing `l[k:]` for an integer `k`: a negative index counts
from the end (clamped at the front), a non-negative one from the start. -/
def pySliceFrom (k : Int) (l : List CrawlLogEntry) : List CrawlLogEntry :=
  if k < 0 then l.drop (l.length - (-k).toNat) else l.drop k.toNat

/-- The handler `get_crawl_log` (app.py:272-281): answers `logs[-limit:]`
for the requested integer `limit` (default 20 at the HTTP layer). -/
def get_crawl_log (logs : List CrawlLogEntry) (limit : Int) : List CrawlLogEntry :=
  pySliceFrom (-limit) logs

/-- C9: a requested limit of 0 returns the entire stored log (`logs[-0:]` is
the whole list); a positive limit returns at most `limit` entries, the most
recent ones, oldest-first. -/
theorem crawl_log_limit_semantics (logs : List CrawlLogEntry) (limit : Int) :
    (limit = 0 → get_crawl_log logs limit = logs) ∧
    (0 < limit →
      (get_crawl_log logs limit).length ≤ limit.toNat ∧
      get_crawl_log logs limit = logs.drop (logs.length - limit.toNat)) := by
  constructor
  · rintro rfl
    simp [get_crawl_log, pySliceFrom]
  · intro hpos
    have h1 : -limit < 0 := by omega
    have heq : get_crawl_log logs limit = logs.drop (logs.length - limit.toNat) := by
      simp only [get_crawl_log, pySliceFrom, if_pos h1, neg_neg]
    refine ⟨?_, heq⟩
    rw [heq]
    simp only [List.length_drop]
    omega

/-- Witness for C9: limit 0 returns the whole one-entry log, limit 1 its
last entry. -/
theorem crawl_log_limit_semantics_witness :
    get_crawl_log [entry0] 0 = [entry0] ∧
    get_crawl_log [entry0] 1 = [entry0].drop ([entry0].length - (1 : Int).toNat) :=
  ⟨(crawl_log_limit_semantics [entry0] 0).1 rfl,
   ((crawl_log_limit_semantics [entry0] 1).2 (by norm_num)).2⟩
